import Mathlib

/-!
Verification of the Funding Signal & Cycle Accounting Engine of the
`tradingbot` repository (`src/funding_strategy.py`), shallowly embedded in
Lean 4.

Modelling conventions:
* Instants are whole seconds since an epoch that falls on a UTC midnight
  (`ℕ`).  Python `datetime` fields are recovered arithmetically:
  `hour = t % 86400 / 3600`, `minute = t % 3600 / 60`,
  `replace(minute=0, second=0, microsecond=0) = t / 3600 * 3600`,
  `replace(hour=h, minute=0, ...) = t / 86400 * 86400 + h * 3600`.
  Naive datetimes are `replace(tzinfo=utc)`-ed by the code, so every input
  instant is already a UTC instant here.
* Python floats are modelled as exact rationals (`ℚ`).
* Python dicts are modelled as association lists with unique keys kept in
  insertion order; a `KeyError` on `d[k]` is modelled with `Except Unit`.
* The `while` loop of `_count_funding_cycles` advances by 3600 seconds per
  iteration; it is embedded structurally with a fuel argument that is
  provably sufficient (`count_funding_cycles` hands it `exitT` fuel, and
  the loop stops by itself once `current ≥ exitT`).
-/

namespace FundingBot

/-- `self.funding_hours = [0, 8, 16]` (line 34 of `funding_strategy.py`). -/
def funding_hours : List ℕ := [0, 8, 16]

/-- `self.max_history = 20` (line 36). -/
def max_history : ℕ := 20

/-- UTC hour of an instant, `now_utc.hour`. -/
def hourOf (t : ℕ) : ℕ := t % 86400 / 3600

/-- UTC minute of an instant, `now_utc.minute`. -/
def minuteOf (t : ℕ) : ℕ := t % 3600 / 60

/-- `x.replace(minute=0, second=0, microsecond=0)`: truncation to the hour. -/
def truncHour (t : ℕ) : ℕ := t / 3600 * 3600

/-- The `for funding_hour in self.funding_hours` loop of
`_next_funding_time` (lines 70-73): returns the first listed hour `h` with
`current_hour < h or (current_hour == h and current_minute < 5)`, as the
instant `now_utc.replace(hour=h, minute=0, second=0, microsecond=0)`. -/
def scan_funding_hours (t : ℕ) : List ℕ → Option ℕ
  | [] => none
  | h :: rest =>
    if hourOf t < h ∨ (hourOf t = h ∧ minuteOf t < 5) then
      some (t / 86400 * 86400 + h * 3600)
    else
      scan_funding_hours t rest

/-- `_next_funding_time` (lines 55-77).  If no funding hour of today
remains, returns `(now + 1 day).replace(hour=0, minute=0, ...)`, i.e. the
next UTC midnight. -/
def next_funding_time (t : ℕ) : ℕ :=
  match scan_funding_hours t funding_hours with
  | some r => r
  | none => (t + 86400) / 86400 * 86400

/-- `_time_to_next_funding` (lines 79-90): `(next_funding - now_utc)` in
minutes, as an exact rational (`total_seconds() / 60`). -/
def time_to_next_funding (t : ℕ) : ℚ :=
  (((next_funding_time t : ℤ) - (t : ℤ) : ℤ) : ℚ) / 60

/-- One test of the `while current < exit_utc` loop body of
`_count_funding_cycles` (lines 113-124): `current.hour` is a funding hour
and the position strictly spans `funding_time = current.replace(minute=0,
second=0, microsecond=0)`. -/
def cycle_hit (entryT exitT current : ℕ) : Prop :=
  hourOf current ∈ funding_hours ∧
    entryT < truncHour current ∧ exitT > truncHour current

instance (entryT exitT current : ℕ) : Decidable (cycle_hit entryT exitT current) := by
  unfold cycle_hit; infer_instance

/-- The `while current < exit_utc` loop of `_count_funding_cycles`
(lines 108-124), embedded structurally on a fuel argument.  Each iteration
advances `current` by one hour (3600 s); the loop exits as soon as
`current ≥ exitT`, so any fuel of at least `exitT - current` iterations
computes the exact loop result (`count_loop_eq_card` below is proved for
every sufficient fuel). -/
def count_loop (entryT exitT : ℕ) : ℕ → ℕ → ℕ
  | _, 0 => 0
  | current, fuel + 1 =>
    if current < exitT then
      (if cycle_hit entryT exitT current then 1 else 0) +
        count_loop entryT exitT (current + 3600) fuel
    else 0

/-- `_count_funding_cycles` (lines 93-126): starts at
`entry_utc.replace(minute=0, second=0, microsecond=0)` and walks hour by
hour while `current < exit_utc`. -/
def count_funding_cycles (entryT exitT : ℕ) : ℕ :=
  count_loop entryT exitT (truncHour entryT) exitT

/-- A funding boundary instant: minute 0 (and second 0) of an hour in
{0, 8, 16} UTC. -/
def is_funding_boundary (b : ℕ) : Prop :=
  b % 3600 = 0 ∧ hourOf b ∈ funding_hours

instance (b : ℕ) : Decidable (is_funding_boundary b) := by
  unfold is_funding_boundary; infer_instance

/-- The number of funding boundaries strictly between `entryT` and
`exitT` (strict on both sides). -/
def boundaries_between (entryT exitT : ℕ) : ℕ :=
  ((Finset.Ioo entryT exitT).filter (fun b => is_funding_boundary b)).card

lemma filter_from_past_empty (entryT exitT current : ℕ) (h : exitT ≤ current) :
    (Finset.Ioo entryT exitT).filter
      (fun b => is_funding_boundary b ∧ current ≤ b) = ∅ := by
  ext b
  simp only [Finset.mem_filter, Finset.mem_Ioo, Finset.not_mem_empty, iff_false, not_and]
  intro hb _ _
  omega

lemma count_loop_eq_card (entryT exitT : ℕ) :
    ∀ fuel current, current % 3600 = 0 → exitT ≤ current + 3600 * fuel →
      count_loop entryT exitT current fuel =
        ((Finset.Ioo entryT exitT).filter
          (fun b => is_funding_boundary b ∧ current ≤ b)).card := by
  intro fuel
  induction fuel with
  | zero =>
    intro current _ hle
    rw [count_loop, filter_from_past_empty entryT exitT current (by omega)]
    rfl
  | succ fuel ih =>
    intro current hc hle
    rw [count_loop]
    by_cases hlt : current < exitT
    · rw [if_pos hlt, ih (current + 3600) (by omega) (by omega)]
      have htr : truncHour current = current := by unfold truncHour; omega
      by_cases hhit : cycle_hit entryT exitT current
      · obtain ⟨hh, he, hx⟩ := hhit
        rw [htr] at he hx
        simp only [funding_hours, hourOf, List.mem_cons, List.not_mem_nil, or_false] at hh
        have hset : (Finset.Ioo entryT exitT).filter
            (fun b => is_funding_boundary b ∧ current ≤ b) =
            insert current ((Finset.Ioo entryT exitT).filter
              (fun b => is_funding_boundary b ∧ current + 3600 ≤ b)) := by
          ext b
          simp only [Finset.mem_filter, Finset.mem_Ioo, Finset.mem_insert,
            is_funding_boundary, hourOf, funding_hours, List.mem_cons,
            List.not_mem_nil, or_false]
          omega
        have hnot : current ∉ (Finset.Ioo entryT exitT).filter
            (fun b => is_funding_boundary b ∧ current + 3600 ≤ b) := by
          simp only [Finset.mem_filter, Finset.mem_Ioo]
          omega
        rw [if_pos ⟨by simpa [funding_hours, hourOf] using hh, by omega, by omega⟩,
          hset, Finset.card_insert_of_not_mem hnot]
        omega
      · have hmiss : ¬(hourOf current ∈ funding_hours ∧
            entryT < truncHour current ∧ exitT > truncHour current) := hhit
        rw [htr] at hmiss
        simp only [funding_hours, hourOf, List.mem_cons, List.not_mem_nil, or_false] at hmiss
        have hset : (Finset.Ioo entryT exitT).filter
            (fun b => is_funding_boundary b ∧ current ≤ b) =
            (Finset.Ioo entryT exitT).filter
              (fun b => is_funding_boundary b ∧ current + 3600 ≤ b) := by
          ext b
          simp only [Finset.mem_filter, Finset.mem_Ioo, is_funding_boundary, hourOf,
            funding_hours, List.mem_cons, List.not_mem_nil, or_false]
          omega
        rw [if_neg hhit, hset]
        omega
    · rw [if_neg hlt, filter_from_past_empty entryT exitT current (by omega)]
      rfl

/-- `_count_funding_cycles` computes exactly the number of funding
boundaries strictly between entry and exit. -/
lemma count_funding_cycles_eq (entryT exitT : ℕ) :
    count_funding_cycles entryT exitT = boundaries_between entryT exitT := by
  unfold count_funding_cycles boundaries_between
  rw [count_loop_eq_card entryT exitT exitT (truncHour entryT)
    (by unfold truncHour; omega) (by unfold truncHour; omega)]
  congr 1
  ext b
  simp only [Finset.mem_filter, Finset.mem_Ioo, and_congr_right_iff, and_iff_left_iff_imp,
    truncHour]
  intro hb _
  omega

/-- Unfolding of `next_funding_time` into the explicit scan over the three
funding hours. -/
lemma next_funding_time_def (t : ℕ) :
    next_funding_time t =
      if hourOf t < 0 ∨ (hourOf t = 0 ∧ minuteOf t < 5) then
        t / 86400 * 86400 + 0 * 3600
      else if hourOf t < 8 ∨ (hourOf t = 8 ∧ minuteOf t < 5) then
        t / 86400 * 86400 + 8 * 3600
      else if hourOf t < 16 ∨ (hourOf t = 16 ∧ minuteOf t < 5) then
        t / 86400 * 86400 + 16 * 3600
      else (t + 86400) / 86400 * 86400 := by
  simp only [next_funding_time, funding_hours, scan_funding_hours]
  split_ifs <;> rfl

/-- `_next_funding_time` returns an instant at most 300 seconds in the
past (during the 5-minute grace window after a boundary), at most 28800
seconds ahead, and strictly in the future whenever `now` is not inside a
grace window. -/
lemma next_funding_time_bounds (t : ℕ) :
    (t : ℤ) - 300 < (next_funding_time t : ℤ) ∧
    (next_funding_time t : ℤ) ≤ (t : ℤ) + 28800 ∧
    (¬(hourOf t ∈ funding_hours ∧ minuteOf t < 5) → t < next_funding_time t) := by
  rw [next_funding_time_def]
  simp only [funding_hours, List.mem_cons, List.not_mem_nil, or_false, hourOf, minuteOf]
  split_ifs <;> refine ⟨by omega, by omega, fun hg => by omega⟩

/-- C1 (amended): `_next_funding_time(now)` is strictly after `now`, and
`_time_to_next_funding(now)` is non-negative, whenever `now` does not lie
in the 5-minute grace window right after a funding boundary; in the grace
window the just-passed boundary is returned, so the result can be up to 5
minutes in the past.  In all cases `_time_to_next_funding(now)` exceeds
−5 minutes and never exceeds 480 minutes. -/
theorem C1_next_funding_after_now_amended (t : ℕ) :
    ((t : ℤ) - 300 < (next_funding_time t : ℤ) ∧
      (-5 : ℚ) < time_to_next_funding t ∧ time_to_next_funding t ≤ 480) ∧
    (¬(hourOf t ∈ funding_hours ∧ minuteOf t < 5) →
      t < next_funding_time t ∧ 0 ≤ time_to_next_funding t) := by
  obtain ⟨h1, h2, h3⟩ := next_funding_time_bounds t
  have h60 : (0 : ℚ) < 60 := by norm_num
  constructor
  · have h1q : (t : ℚ) - 300 < (next_funding_time t : ℚ) := by exact_mod_cast h1
    have h2q : (next_funding_time t : ℚ) ≤ (t : ℚ) + 28800 := by exact_mod_cast h2
    refine ⟨h1, ?_, ?_⟩
    · rw [time_to_next_funding, lt_div_iff₀ h60]
      push_cast
      linarith
    · rw [time_to_next_funding, div_le_iff₀ h60]
      push_cast
      linarith
  · intro hg
    refine ⟨h3 hg, ?_⟩
    rw [time_to_next_funding]
    apply div_nonneg _ (by norm_num : (0 : ℚ) ≤ 60)
    have htq : (t : ℚ) ≤ (next_funding_time t : ℚ) := by
      exact_mod_cast Nat.le_of_lt (h3 hg)
    push_cast
    linarith

/-- Witness for C1 at 06:25 UTC (outside any grace window). -/
theorem C1_next_funding_after_now_amended_witness :
    23100 < next_funding_time 23100 ∧ 0 ≤ time_to_next_funding 23100 :=
  (C1_next_funding_after_now_amended 23100).2 (by decide)

/-- Counterexample to C1 as stated: at 08:04:00 UTC (inside the 5-minute
grace window after the 08:00 boundary) `_next_funding_time` returns the
08:00 boundary, which is strictly before `now`, and
`_time_to_next_funding` is negative. -/
theorem C1_next_funding_after_now_cex :
    next_funding_time 29040 < 29040 ∧ time_to_next_funding 29040 < 0 := by
  have h : next_funding_time 29040 = 28800 := by decide
  constructor
  · omega
  · rw [time_to_next_funding, h]
    norm_num

/-- C2 (confirmed): `_count_funding_cycles(entry, exit)` equals the number
of funding-boundary instants (minute 0 of an hour in {0, 8, 16} UTC)
strictly between entry and exit, strict on both sides; in particular
06:25→09:30 gives 1, 06:25→07:30 gives 0, and 06:25→17:00 gives 2. -/
theorem C2_count_cycles_strict_boundaries :
    (∀ entryT exitT : ℕ,
      count_funding_cycles entryT exitT = boundaries_between entryT exitT) ∧
    count_funding_cycles 23100 34200 = 1 ∧
    count_funding_cycles 23100 27000 = 0 ∧
    count_funding_cycles 23100 61200 = 2 :=
  ⟨count_funding_cycles_eq, by decide, by decide, by decide⟩

/-- C9 (confirmed): for a fixed entry time, `_count_funding_cycles` is
non-negative and monotonically non-decreasing in the exit time. -/
theorem C9_cycles_monotone (entryT x₁ x₂ : ℕ) (h : x₁ ≤ x₂) :
    0 ≤ count_funding_cycles entryT x₁ ∧
    count_funding_cycles entryT x₁ ≤ count_funding_cycles entryT x₂ := by
  refine ⟨Nat.zero_le _, ?_⟩
  rw [count_funding_cycles_eq, count_funding_cycles_eq]
  unfold boundaries_between
  apply Finset.card_le_card
  intro b hb
  simp only [Finset.mem_filter, Finset.mem_Ioo] at hb ⊢
  exact ⟨⟨hb.1.1, lt_of_lt_of_le hb.1.2 h⟩, hb.2⟩

/-- Witness for C9: a position entered at 06:25 whose reference instant
advances from 07:30 to 09:30. -/
theorem C9_cycles_monotone_witness :
    0 ≤ count_funding_cycles 23100 27000 ∧
    count_funding_cycles 23100 27000 ≤ count_funding_cycles 23100 34200 :=
  C9_cycles_monotone 23100 27000 34200 (by norm_num)

/-! ## Python dicts as insertion-ordered association lists -/

/-- `d[k]` as an option (`none` models the `KeyError` case). -/
def dict_lookup {α : Type} (k : String) : List (String × α) → Option α
  | [] => none
  | (k', v) :: rest => if k' = k then some v else dict_lookup k rest

/-- `d[k] = v`: replaces the value in place if the key exists (Python
dicts keep the original insertion position), appends otherwise. -/
def dict_insert {α : Type} (k : String) (v : α) : List (String × α) → List (String × α)
  | [] => [(k, v)]
  | (k', v') :: rest => if k' = k then (k, v) :: rest else (k', v') :: dict_insert k v rest

/-- `del d[k]`. -/
def dict_erase {α : Type} (k : String) : List (String × α) → List (String × α)
  | [] => []
  | (k', v') :: rest => if k' = k then rest else (k', v') :: dict_erase k rest

/-! ## Strategy configuration and state -/

/-- The immutable attributes set by `FundingArbitrageStrategy.__init__`
(lines 21-44). -/
structure StratConfig where
  symbols : List String
  extreme_threshold : ℚ
  min_threshold : ℚ
  max_position_size : ℚ
  leverage : ℚ
  max_positions : ℕ
  estimated_slippage_bps : ℚ
  taker_fee_bps : ℚ
deriving DecidableEq

/-- `__init__`: threshold configuration values are divided by 100, and the
slippage/fee assumptions are the hard-coded constants 1 bp and 2 bps
(lines 27-41). -/
def strategy_init (symbols : List String)
    (min_funding_rate_threshold buffer_over_fees max_position_size_usd lev : ℚ)
    (max_pos : ℕ) : StratConfig :=
  { symbols := symbols
    extreme_threshold := min_funding_rate_threshold / 100
    min_threshold := buffer_over_fees / 100
    max_position_size := max_position_size_usd
    leverage := lev
    max_positions := max_pos
    estimated_slippage_bps := 1
    taker_fee_bps := 2 }

/-- `_calculate_break_even_rate` (lines 46-53):
`(slippage + 2 * taker_fee) / 2 / 10000`. -/
def break_even_rate (cfg : StratConfig) : ℚ :=
  (cfg.estimated_slippage_bps + cfg.taker_fee_bps * 2) / 2 / 10000

/-- An entry of `self.positions` (created by `register_position`,
lines 296-303). -/
structure Position where
  side : String
  entry_rate : ℚ
  entry_price : Option ℚ
  entry_time : ℕ
  size_usd : ℚ
deriving DecidableEq

/-- The `FundingSignal` dataclass (lines 7-18).  The human-readable
`reason` strings are kept, but the Python f-string interpolation of the
numeric values into them is not modelled. -/
structure FundingSignal where
  timestamp : ℕ
  symbol : String
  funding_rate : ℚ
  mark_price : ℚ
  action : String
  confidence : ℚ
  expected_profit_bps : ℚ
  reason : String
  next_funding_time : Option ℕ
  cycles_captured : ℕ
deriving DecidableEq

/-- The mutable state of the strategy: `self.history` and
`self.positions`. -/
structure StratState where
  history : List (String × List ℚ)
  positions : List (String × Position)
deriving DecidableEq

/-- The dict returned by `_calculate_stats` (lines 157-167).  `std` is
`statistics.stdev`, the sample standard deviation; the engine only ever
compares `std` against the non-negative quantity `abs(rate) * 0.5`, so the
embedding carries its square `std_sq` (the sample variance, an exact
rational) and squares that single comparison — an exact equivalence since
`sqrt v > c ↔ v > c²` for `c ≥ 0`. -/
structure FundingStats where
  mean : ℚ
  std_sq : ℚ
  min : ℚ
  max : ℚ
deriving DecidableEq

def list_min : List ℚ → ℚ
  | [] => 0
  | x :: xs => xs.foldl min x

def list_max : List ℚ → ℚ
  | [] => 0
  | x :: xs => xs.foldl max x

/-- `statistics.mean`. -/
def list_mean (l : List ℚ) : ℚ := l.sum / l.length

/-- The square of `statistics.stdev` (sample variance, denominator
`n - 1`). -/
def sample_variance (l : List ℚ) : ℚ :=
  (l.map (fun x => (x - list_mean l) ^ 2)).sum / ((l.length : ℚ) - 1)

/-- `_calculate_stats` (lines 157-167): zeros when fewer than 2 samples
exist. -/
def calculate_stats (hist : List ℚ) : FundingStats :=
  if hist.length < 2 then ⟨0, 0, 0, 0⟩
  else ⟨list_mean hist, sample_variance hist, list_min hist, list_max hist⟩

/-- `_update_history` (lines 152-155), acting on one symbol's window:
append the rate, then `pop(0)` if the window exceeds `max_history`. -/
def update_history (l : List ℚ) (rate : ℚ) : List ℚ :=
  let l2 := l ++ [rate]
  if l2.length > max_history then l2.drop 1 else l2

/-- `_calculate_confidence` (lines 285-287).  (In Python a zero
`extreme_threshold` would raise `ZeroDivisionError`; in `ℚ` the division
yields 0 — no claim concerns that configuration.) -/
def calculate_confidence (cfg : StratConfig) (rate : ℚ) : ℚ :=
  max (6 / 10) (min (|rate| / (cfg.extreme_threshold * (3 / 2))) 1)

/-- Python's `round` (banker's rounding, half to even) on an exact
rational. -/
def round_half_even (q : ℚ) : ℤ :=
  let n := ⌊q⌋
  if q - n < 1 / 2 then n
  else if q - n > 1 / 2 then n + 1
  else if Even n then n else n + 1

/-- `round(x, 2)`. -/
def round2 (x : ℚ) : ℚ := (round_half_even (x * 100) : ℚ) / 100

/-- `calculate_size` (lines 289-294). -/
def calculate_size (cfg : StratConfig) (confidence available_usdt : ℚ) : ℚ :=
  let safe_capital := available_usdt * (8 / 10)
  let size_with_leverage := safe_capital * cfg.leverage * confidence
  let limit_size := cfg.max_position_size * cfg.leverage
  let final_size := min size_with_leverage limit_size
  if final_size ≥ 15 then round2 final_size else 0

/-! ## The decision state machine -/

/-- `_evaluate_entry` (lines 181-222).  `now` stands for the wall clock
read inside the method (`datetime.now()` for the signal timestamp and
`datetime.now(timezone.utc)` for the funding clock are taken to be the
same instant). -/
def evaluate_entry (cfg : StratConfig) (now : ℕ) (symbol : String)
    (rate mark : ℚ) (stats : FundingStats) : Option FundingSignal :=
  if |rate| < break_even_rate cfg then none
  else
    let is_stable := |rate| ≥ |stats.mean| * (7 / 10)
    let next_funding := next_funding_time now
    if rate > cfg.extreme_threshold ∧ is_stable then
      some { timestamp := now, symbol := symbol, funding_rate := rate,
             mark_price := mark, action := "open_short",
             confidence := calculate_confidence cfg rate,
             expected_profit_bps := rate * 10000,
             reason := "SHORT: stable funding above break-even",
             next_funding_time := some next_funding, cycles_captured := 0 }
    else if rate < -cfg.extreme_threshold ∧ is_stable then
      some { timestamp := now, symbol := symbol, funding_rate := rate,
             mark_price := mark, action := "open_long",
             confidence := calculate_confidence cfg rate,
             expected_profit_bps := |rate| * 10000,
             reason := "LONG: stable funding above break-even",
             next_funding_time := some next_funding, cycles_captured := 0 }
    else none

/-- `_evaluate_exit` (lines 224-283).  The `stats` argument of the Python
method is received but never used; `hold_hours` is only logged. -/
def evaluate_exit (cfg : StratConfig) (now : ℕ) (symbol : String)
    (rate mark : ℚ) (_stats : FundingStats) (pos : Position) : Option FundingSignal :=
  let cycles := count_funding_cycles pos.entry_time now
  let next_funding := next_funding_time now
  if cycles ≥ 1 ∧ |rate| < cfg.min_threshold then
    some { timestamp := now, symbol := symbol, funding_rate := rate,
           mark_price := mark, action := "close", confidence := 9 / 10,
           expected_profit_bps := 0,
           reason := "closed: cycles captured, funding normalized",
           next_funding_time := some next_funding, cycles_captured := cycles }
  else if cycles ≥ 1 ∧
      ((pos.side = "short" ∧ rate < 0) ∨ (pos.side = "long" ∧ rate > 0)) then
    some { timestamp := now, symbol := symbol, funding_rate := rate,
           mark_price := mark, action := "close", confidence := 1,
           expected_profit_bps := 0,
           reason := "reversal after captured cycles",
           next_funding_time := some next_funding, cycles_captured := cycles }
  else if cycles = 0 ∧ |rate| < break_even_rate cfg * (1 / 2) then
    some { timestamp := now, symbol := symbol, funding_rate := rate,
           mark_price := mark, action := "close", confidence := 1 / 2,
           expected_profit_bps := -(break_even_rate cfg) * 10000,
           reason := "stop: no cycles captured, funding collapsed",
           next_funding_time := some next_funding, cycles_captured := 0 }
  else none

/-- `_evaluate_signal` (lines 169-179).  Reads `funding['fundingRate']`
and `funding['markPrice']` (each a potential `KeyError`), then branches on
whether the symbol has an open position. -/
def evaluate_signal (cfg : StratConfig) (now : ℕ) (st : StratState)
    (symbol : String) (funding : List (String × ℚ)) (stats : FundingStats) :
    Except Unit (Option FundingSignal × StratState) :=
  match dict_lookup "fundingRate" funding with
  | none => .error ()
  | some rate =>
    match dict_lookup "markPrice" funding with
    | none => .error ()
    | some mark =>
      match dict_lookup symbol st.positions with
      | none =>
        if st.positions.length ≥ cfg.max_positions then .ok (none, st)
        else .ok (evaluate_entry cfg now symbol rate mark stats, st)
      | some pos => .ok (evaluate_exit cfg now symbol rate mark stats pos, st)

/-- `update` (lines 129-150).  Empty (falsy) `funding_data`/`ticker_data`
short-circuit to `None`; unknown symbols short-circuit to `None`; then the
history window is updated, statistics recomputed, and the volatility
filter applied before evaluating a signal.  The `ticker_data` dict is
passed along in Python but its contents are never read. -/
def update (cfg : StratConfig) (now : ℕ) (st : StratState) (symbol : String)
    (funding ticker : List (String × ℚ)) :
    Except Unit (Option FundingSignal × StratState) :=
  if funding.isEmpty ∨ ticker.isEmpty then .ok (none, st)
  else if symbol ∉ cfg.symbols then .ok (none, st)
  else
    let st1 : StratState :=
      if (dict_lookup symbol st.history).isSome then st
      else { st with history := dict_insert symbol [] st.history }
    match dict_lookup "fundingRate" funding with
    | none => .error ()
    | some rate =>
      match dict_lookup symbol st1.history with
      | none => .error ()
      | some h0 =>
        let h1 := update_history h0 rate
        let st2 : StratState :=
          { st1 with history := dict_insert symbol h1 st1.history }
        let stats := calculate_stats ((dict_lookup symbol st2.history).getD [])
        if h1.length > 5 ∧ stats.std_sq > (|rate| * (1 / 2)) ^ 2 then
          .ok (none, st2)
        else
          evaluate_signal cfg now st2 symbol funding stats

/-- `register_position` (lines 296-303): unconditionally stores a
position for the symbol with `entry_time = now`. -/
def register_position (st : StratState) (now : ℕ) (symbol side : String)
    (entry_rate size_usd : ℚ) (entry_price : Option ℚ) : StratState :=
  let pos : Position :=
    { side := side.toLower, entry_rate := entry_rate,
      entry_price := entry_price, entry_time := now, size_usd := size_usd }
  { st with positions := dict_insert symbol pos st.positions }

/-- `clear_position` (lines 305-312): deletes the symbol's position if
present (the logged duration/cycle computations are side-effect free). -/
def clear_position (st : StratState) (symbol : String) : StratState :=
  if (dict_lookup symbol st.positions).isSome then
    { st with positions := dict_erase symbol st.positions }
  else st

/-- `get_position_count` (lines 317-318). -/
def get_position_count (st : StratState) : ℕ := st.positions.length

/-! ## Observations on `update` results -/

/-- The `(action, confidence)` of a produced signal, if any. -/
def close_conf (r : Except Unit (Option FundingSignal × StratState)) :
    Option (String × ℚ) :=
  match r with
  | .ok (some sig, _) => some (sig.action, sig.confidence)
  | _ => none

/-- Whether an `update` result carries an `open_short`/`open_long`
signal. -/
def emits_open (r : Except Unit (Option FundingSignal × StratState)) : Bool :=
  match r with
  | .ok (some sig, _) => sig.action == "open_short" || sig.action == "open_long"
  | _ => false

/-! ## Dictionary lemmas -/

lemma dict_lookup_insert_self {α : Type} (k : String) (v : α)
    (d : List (String × α)) : dict_lookup k (dict_insert k v d) = some v := by
  induction d with
  | nil => simp [dict_insert, dict_lookup]
  | cons p rest ih =>
    obtain ⟨k', v'⟩ := p
    by_cases h : k' = k <;> simp [dict_insert, dict_lookup, h, ih]

lemma dict_insert_length {α : Type} (k : String) (v : α)
    (d : List (String × α)) :
    (dict_insert k v d).length =
      if (dict_lookup k d).isSome then d.length else d.length + 1 := by
  induction d with
  | nil => simp [dict_insert, dict_lookup]
  | cons p rest ih =>
    obtain ⟨k', v'⟩ := p
    by_cases h : k' = k
    · simp [dict_insert, dict_lookup, h]
    · by_cases hr : (dict_lookup k rest).isSome
      · simp [dict_insert, dict_lookup, h, hr] at ih ⊢
        omega
      · simp [dict_insert, dict_lookup, h, hr] at ih ⊢
        omega

lemma dict_erase_length_le {α : Type} (k : String) (d : List (String × α)) :
    (dict_erase k d).length ≤ d.length := by
  induction d with
  | nil => simp [dict_erase]
  | cons p rest ih =>
    obtain ⟨k', v'⟩ := p
    by_cases h : k' = k
    · simp [dict_erase, h]
    · simp [dict_erase, h]
      omega

/-! ## Concrete example data shared by witnesses and counterexamples -/

/-- A configuration with the repository's `settings.json` defaults:
`min_funding_rate_threshold = 0.015`, `buffer_over_fees = 0.005`,
`max_position_size_usd = 100`, `leverage = 5`, `max_positions = 3`. -/
def cfg_ex : StratConfig :=
  strategy_init ["BTC"] (15 / 1000) (5 / 1000) 100 5 3

/-- A short position entered at 06:25 UTC. -/
def pos_ex : Position :=
  { side := "short", entry_rate := 1 / 1000, entry_price := none,
    entry_time := 23100, size_usd := 50 }

/-- A state holding the `pos_ex` position with an empty history window. -/
def st_ex : StratState := { history := [("BTC", [])], positions := [("BTC", pos_ex)] }

/-- Like `st_ex` but with six alternating-sign history samples, making the
sample standard deviation large. -/
def st_vol : StratState :=
  { history := [("BTC", [1/100, -1/100, 1/100, -1/100, 1/100, -1/100])],
    positions := [("BTC", pos_ex)] }

/-- Well-formed funding data with a tiny (normalized) rate. -/
def funding_tiny : List (String × ℚ) := [("fundingRate", 1 / 100000), ("markPrice", 100)]

/-- A non-empty ticker payload (its contents are never read). -/
def ticker_ex : List (String × ℚ) := [("last", 100)]

/-- 21 sample rates, one more than the window capacity. -/
def sample_rates : List ℚ := (List.range 21).map (fun n => (n : ℚ))

/-! ## C6: bounded FIFO history window -/

/-- After any sequence of recorded rates, the window holds exactly the
most recent `max_history` of them, in insertion order. -/
lemma foldl_update_history (l : List ℚ) :
    l.foldl update_history [] = l.drop (l.length - max_history) := by
  induction l using List.reverseRecOn with
  | nil => rfl
  | append_singleton xs r ih =>
    rw [List.foldl_append, List.foldl_cons, List.foldl_nil, ih]
    unfold update_history max_history
    by_cases hlen : xs.length < 20
    · have h0 : xs.length - 20 = 0 := by omega
      rw [h0, List.drop_zero]
      have hcond : ¬((xs ++ [r]).length > 20) := by
        simp only [List.length_append, List.length_singleton]
        omega
      rw [if_neg (by simpa using hcond)]
      have h1 : (xs ++ [r]).length - 20 = 0 := by
        simp only [List.length_append, List.length_singleton]
        omega
      rw [h1, List.drop_zero]
    · have hall : (xs.drop (xs.length - 20)).length = 20 := by
        rw [List.length_drop]; omega
      have hcond : (xs.drop (xs.length - 20) ++ [r]).length > 20 := by
        simp only [List.length_append, List.length_singleton, hall]
        omega
      have h1le : 1 ≤ (xs.drop (xs.length - 20)).length := by omega
      have h2le : (xs ++ [r]).length - 20 ≤ xs.length := by
        simp only [List.length_append, List.length_singleton]
        omega
      rw [if_pos (by simpa using hcond)]
      rw [List.drop_append_of_le_length h1le, List.drop_drop,
        List.drop_append_of_le_length h2le]
      have hidx : xs.length - 20 + 1 = (xs ++ [r]).length - 20 := by
        simp only [List.length_append, List.length_singleton]
        omega
      rw [hidx]

/-- C6 (confirmed): after recording `N > 20` rates, starting from an empty
window, the window has length exactly 20 and holds exactly the most
recent 20 recorded values in insertion order (oldest evicted first). -/
theorem C6_window_fifo (rates : List ℚ) (h : rates.length > 20) :
    rates.foldl update_history [] = rates.drop (rates.length - 20) ∧
    (rates.foldl update_history []).length = 20 := by
  refine ⟨foldl_update_history rates, ?_⟩
  rw [foldl_update_history, List.length_drop]
  unfold max_history
  omega

/-- Witness for C6 with 21 recorded rates. -/
theorem C6_window_fifo_witness :
    sample_rates.length > 20 ∧
    (sample_rates.foldl update_history [] =
        sample_rates.drop (sample_rates.length - 20) ∧
      (sample_rates.foldl update_history []).length = 20) :=
  ⟨by decide, C6_window_fifo sample_rates (by decide)⟩

/-! ## C7: sizing floor -/

lemma round2_ge_of_ge_15 (x : ℚ) (hx : 15 ≤ x) : 15 ≤ round2 x := by
  have hfl : (1500 : ℤ) ≤ ⌊x * 100⌋ := by
    apply Int.le_floor.mpr
    push_cast
    linarith
  have hflq : (1500 : ℚ) ≤ (⌊x * 100⌋ : ℚ) := by exact_mod_cast hfl
  simp only [round2, round_half_even]
  split_ifs <;>
    · rw [le_div_iff₀ (by norm_num : (0 : ℚ) < 100)]
      push_cast
      linarith

/-- C7 (confirmed): `calculate_size` returns exactly 0 whenever
`min(0.8 * available * leverage * confidence, max_position_size *
leverage)` falls below the 15 USD floor, otherwise that minimum rounded to
2 decimals; its result is never strictly between 0 and 15. -/
theorem C7_sizing_floor (cfg : StratConfig) (confidence available_usdt : ℚ) :
    calculate_size cfg confidence available_usdt =
      (if min ((8 / 10) * available_usdt * cfg.leverage * confidence)
            (cfg.max_position_size * cfg.leverage) < 15 then 0
       else round2 (min ((8 / 10) * available_usdt * cfg.leverage * confidence)
            (cfg.max_position_size * cfg.leverage))) ∧
    (calculate_size cfg confidence available_usdt = 0 ∨
      15 ≤ calculate_size cfg confidence available_usdt) := by
  have harg : available_usdt * (8 / 10) * cfg.leverage * confidence =
      (8 / 10) * available_usdt * cfg.leverage * confidence := by ring
  simp only [calculate_size]
  rw [harg]
  by_cases h : min ((8 / 10) * available_usdt * cfg.leverage * confidence)
      (cfg.max_position_size * cfg.leverage) < 15
  · rw [if_neg (by simpa using not_le_of_lt h), if_pos h]
    exact ⟨rfl, Or.inl rfl⟩
  · have hge : 15 ≤ min ((8 / 10) * available_usdt * cfg.leverage * confidence)
        (cfg.max_position_size * cfg.leverage) := le_of_not_lt h
    rw [if_pos hge, if_neg h]
    exact ⟨rfl, Or.inr (round2_ge_of_ge_15 _ hge)⟩

/-! ## C8: missing market data -/

/-- C8 (amended): for missing — empty, hence falsy — `funding_data` or
`ticker_data`, `update` returns `None`, leaves the state unchanged, and
raises nothing. -/
theorem C8_missing_data_returns_none (cfg : StratConfig) (now : ℕ)
    (st : StratState) (symbol : String) (funding ticker : List (String × ℚ))
    (h : funding = [] ∨ ticker = []) :
    update cfg now st symbol funding ticker = .ok (none, st) := by
  rw [update, if_pos]
  rcases h with h | h <;> subst h <;> simp

/-- Witness for C8: empty funding data. -/
theorem C8_missing_data_returns_none_witness :
    update cfg_ex 34200 st_ex "BTC" [] ticker_ex = .ok (none, st_ex) :=
  C8_missing_data_returns_none cfg_ex 34200 st_ex "BTC" [] ticker_ex (Or.inl rfl)

/-- Counterexample to C8 as stated: malformed, non-empty funding data
(payload lacking the `fundingRate` key) makes `update` raise a `KeyError`
(modelled as `Except.error`) instead of returning `None`. -/
theorem C8_malformed_data_cex :
    update cfg_ex 34200 st_ex "BTC" [("markPrice", 100)] ticker_ex = .error () := by
  rfl

/-! ## C10: unconfigured symbols -/

/-- C10 (confirmed): a symbol outside the configured list makes `update`
return `None` with the state untouched, whatever the payloads. -/
theorem C10_unknown_symbol_noop (cfg : StratConfig) (now : ℕ) (st : StratState)
    (symbol : String) (funding ticker : List (String × ℚ))
    (h : symbol ∉ cfg.symbols) :
    update cfg now st symbol funding ticker = .ok (none, st) := by
  rw [update]
  by_cases h1 : funding.isEmpty ∨ ticker.isEmpty
  · rw [if_pos h1]
  · rw [if_neg h1, if_pos h]

/-- Witness for C10: the unconfigured symbol `"ETH"`. -/
theorem C10_unknown_symbol_noop_witness :
    update cfg_ex 34200 st_ex "ETH" funding_tiny ticker_ex = .ok (none, st_ex) :=
  C10_unknown_symbol_noop cfg_ex 34200 st_ex "ETH" funding_tiny ticker_ex (by decide)

/-! ## Running `update` under well-formed inputs -/

/-- With non-empty payloads, a configured symbol and a present
`fundingRate` key, `update` reduces to the volatility filter followed by
`_evaluate_signal`, with the history window updated. -/
lemma update_run (cfg : StratConfig) (now : ℕ) (st : StratState)
    (symbol : String) (funding ticker : List (String × ℚ)) (rate : ℚ)
    (hE : ¬(funding.isEmpty ∨ ticker.isEmpty))
    (hsym : symbol ∈ cfg.symbols)
    (hr : dict_lookup "fundingRate" funding = some rate) :
    update cfg now st symbol funding ticker =
      (let h1 := update_history ((dict_lookup symbol st.history).getD []) rate
       let st2 : StratState :=
         { history := dict_insert symbol h1
             (if (dict_lookup symbol st.history).isSome then st.history
              else dict_insert symbol [] st.history),
           positions := st.positions }
       let stats := calculate_stats h1
       if h1.length > 5 ∧ stats.std_sq > (|rate| * (1 / 2)) ^ 2 then .ok (none, st2)
       else evaluate_signal cfg now st2 symbol funding stats) := by
  rw [update, if_neg hE, if_neg (not_not_intro hsym)]
  rcases hH : dict_lookup symbol st.history with _ | h0 <;>
    simp only [hH, hr, dict_lookup_insert_self, Option.isSome_none, Option.isSome_some,
      Bool.false_eq_true, if_false, if_true, Option.getD_none, Option.getD_some]

/-- Every `ok` result of `update` keeps `positions` unchanged, and every
produced signal comes either from `_evaluate_exit` on the symbol's open
position, or from `_evaluate_entry` under the `max_positions` cap. -/
lemma update_ok_inv (cfg : StratConfig) (now : ℕ) (st : StratState)
    (symbol : String) (funding ticker : List (String × ℚ))
    (osig : Option FundingSignal) (st' : StratState)
    (h : update cfg now st symbol funding ticker = .ok (osig, st')) :
    st'.positions = st.positions ∧
    (∀ sig, osig = some sig →
      ∃ rate mark stats,
        dict_lookup "fundingRate" funding = some rate ∧
        dict_lookup "markPrice" funding = some mark ∧
        ((∃ pos, dict_lookup symbol st.positions = some pos ∧
            evaluate_exit cfg now symbol rate mark stats pos = some sig) ∨
          (dict_lookup symbol st.positions = none ∧
            st.positions.length < cfg.max_positions ∧
            evaluate_entry cfg now symbol rate mark stats = some sig))) := by
  by_cases hE : funding.isEmpty ∨ ticker.isEmpty
  · rw [update, if_pos hE] at h
    simp only [Except.ok.injEq, Prod.mk.injEq] at h
    refine ⟨by rw [← h.2], fun sig hsig => ?_⟩
    rw [← h.1] at hsig
    exact Option.noConfusion hsig
  · by_cases hS : symbol ∈ cfg.symbols
    · rcases hF : dict_lookup "fundingRate" funding with _ | rate
      · rw [update, if_neg hE, if_neg (not_not_intro hS)] at h
        simp only [hF] at h
        exact Except.noConfusion h
      · rw [update_run cfg now st symbol funding ticker rate hE hS hF] at h
        set h1 := update_history ((dict_lookup symbol st.history).getD []) rate with hh1
        set stats := calculate_stats h1 with hstats
        by_cases hV : h1.length > 5 ∧ stats.std_sq > (|rate| * (1 / 2)) ^ 2
        · rw [if_pos hV] at h
          simp only [Except.ok.injEq, Prod.mk.injEq] at h
          refine ⟨by rw [← h.2], fun sig hsig => ?_⟩
          rw [← h.1] at hsig
          exact Option.noConfusion hsig
        · rw [if_neg hV] at h
          rw [evaluate_signal, hF] at h
          rcases hM : dict_lookup "markPrice" funding with _ | mark
          · simp only [hM] at h
            exact Except.noConfusion h
          · simp only [hM] at h
            rcases hP : dict_lookup symbol st.positions with _ | pos
            · simp only [hP] at h
              by_cases hC : st.positions.length ≥ cfg.max_positions
              · rw [if_pos hC] at h
                simp only [Except.ok.injEq, Prod.mk.injEq] at h
                refine ⟨by rw [← h.2], fun sig hsig => ?_⟩
                rw [← h.1] at hsig
                exact Option.noConfusion hsig
              · rw [if_neg hC] at h
                simp only [Except.ok.injEq, Prod.mk.injEq] at h
                refine ⟨by rw [← h.2], fun sig hsig => ?_⟩
                refine ⟨rate, mark, stats, rfl, rfl, Or.inr ⟨rfl, by omega, ?_⟩⟩
                rw [← h.1] at hsig
                exact hsig
            · simp only [hP] at h
              simp only [Except.ok.injEq, Prod.mk.injEq] at h
              refine ⟨by rw [← h.2], fun sig hsig => ?_⟩
              refine ⟨rate, mark, stats, rfl, rfl, Or.inl ⟨pos, rfl, ?_⟩⟩
              rw [← h.1] at hsig
              exact hsig
    · rw [update, if_neg hE, if_pos hS] at h
      simp only [Except.ok.injEq, Prod.mk.injEq] at h
      refine ⟨by rw [← h.2], fun sig hsig => ?_⟩
      rw [← h.1] at hsig
      exact Option.noConfusion hsig

/-- Every signal `_evaluate_exit` emits is a `close`. -/
lemma evaluate_exit_action (cfg : StratConfig) (now : ℕ) (symbol : String)
    (rate mark : ℚ) (stats : FundingStats) (pos : Position) (sig : FundingSignal)
    (h : evaluate_exit cfg now symbol rate mark stats pos = some sig) :
    sig.action = "close" := by
  simp only [evaluate_exit] at h
  split_ifs at h
  all_goals rw [← Option.some.inj h]

/-- `_evaluate_entry` emits nothing below the break-even rate. -/
lemma evaluate_entry_below_break_even (cfg : StratConfig) (now : ℕ)
    (symbol : String) (rate mark : ℚ) (stats : FundingStats)
    (h : |rate| < break_even_rate cfg) :
    evaluate_entry cfg now symbol rate mark stats = none := by
  simp only [evaluate_entry]
  rw [if_pos h]

/-! ## C4: break-even entry gating -/

/-- C4 (confirmed): whenever the observed funding rate is below the
break-even rate `(slippage_bps + 2 * taker_fee_bps) / 2 / 10000` in
absolute value, `update` never emits an `open_short`/`open_long` signal,
regardless of the history window contents. -/
theorem C4_no_open_below_break_even (cfg : StratConfig) (now : ℕ)
    (st : StratState) (symbol : String) (funding ticker : List (String × ℚ))
    (rate : ℚ)
    (hr : dict_lookup "fundingRate" funding = some rate)
    (hbe : |rate| < break_even_rate cfg) :
    emits_open (update cfg now st symbol funding ticker) = false := by
  rcases hu : update cfg now st symbol funding ticker with e | ⟨osig, st'⟩
  · rfl
  · rcases osig with _ | sig
    · rfl
    · obtain ⟨-, hinv⟩ := update_ok_inv cfg now st symbol funding ticker (some sig) st' hu
      obtain ⟨rate', mark, stats, hr', hm, hcase⟩ := hinv sig rfl
      have he : rate' = rate := by
        rw [hr] at hr'
        exact (Option.some.inj hr').symm
      subst he
      rcases hcase with ⟨pos, hpos, hexit⟩ | ⟨hnone, hlt, hentry⟩
      · have hact := evaluate_exit_action cfg now symbol rate' mark stats pos sig hexit
        simp [emits_open, hact]
      · rw [evaluate_entry_below_break_even cfg now symbol rate' mark stats hbe] at hentry
        exact Option.noConfusion hentry

/-- Witness for C4: a 0.001% rate against a 0.025% break-even. -/
theorem C4_no_open_below_break_even_witness :
    emits_open (update cfg_ex 34200 st_ex "BTC" funding_tiny ticker_ex) = false :=
  C4_no_open_below_break_even cfg_ex 34200 st_ex "BTC" funding_tiny ticker_ex
    (1 / 100000) rfl (by norm_num [break_even_rate, cfg_ex, strategy_init, abs_lt])

/-! ## C3: exit on normalized funding after a captured cycle -/

/-- C3 (amended): if the symbol is configured, both payloads are present
with their keys, the symbol holds an open position with at least one
captured cycle, the rate has normalized below the exit threshold, and the
volatility filter does not suppress the tick, then `update` returns a
`close` signal with confidence 0.9. -/
theorem C3_close_on_normalized_funding (cfg : StratConfig) (now : ℕ)
    (st : StratState) (symbol : String) (funding ticker : List (String × ℚ))
    (rate mark : ℚ) (pos : Position)
    (hfe : funding ≠ []) (hte : ticker ≠ [])
    (hsym : symbol ∈ cfg.symbols)
    (hr : dict_lookup "fundingRate" funding = some rate)
    (hm : dict_lookup "markPrice" funding = some mark)
    (hpos : dict_lookup symbol st.positions = some pos)
    (hcy : 1 ≤ count_funding_cycles pos.entry_time now)
    (hth : |rate| < cfg.min_threshold)
    (hvol : ¬((update_history ((dict_lookup symbol st.history).getD []) rate).length > 5 ∧
        (calculate_stats (update_history ((dict_lookup symbol st.history).getD []) rate)).std_sq >
          (|rate| * (1 / 2)) ^ 2)) :
    close_conf (update cfg now st symbol funding ticker) = some ("close", 9 / 10) := by
  have hE : ¬(funding.isEmpty ∨ ticker.isEmpty) := by
    simp [List.isEmpty_iff, hfe, hte]
  rw [update_run cfg now st symbol funding ticker rate hE hsym hr]
  dsimp only
  rw [if_neg hvol]
  simp only [evaluate_signal, hr, hm, hpos]
  simp only [evaluate_exit]
  rw [if_pos ⟨hcy, hth⟩]
  rfl

/-- Witness for C3: the open 06:25 short at 09:30 with a 0.001% rate. -/
theorem C3_close_on_normalized_funding_witness :
    close_conf (update cfg_ex 34200 st_ex "BTC" funding_tiny ticker_ex) =
      some ("close", 9 / 10) :=
  C3_close_on_normalized_funding cfg_ex 34200 st_ex "BTC" funding_tiny ticker_ex
    (1 / 100000) 100 pos_ex (by decide) (by decide) (by decide) rfl rfl rfl
    (by decide) (by norm_num [cfg_ex, strategy_init, abs_lt]) (by decide)

/-- Counterexample to C3 as stated: with six alternating-sign history
samples the volatility filter returns `None` even though the position has
a captured cycle and the rate sits below the exit threshold. -/
theorem C3_volatility_filter_blocks_cex :
    dict_lookup "BTC" st_vol.positions = some pos_ex ∧
    1 ≤ count_funding_cycles pos_ex.entry_time 34200 ∧
    |(1 / 100000 : ℚ)| < cfg_ex.min_threshold ∧
    dict_lookup "fundingRate" funding_tiny = some (1 / 100000) ∧
    close_conf (update cfg_ex 34200 st_vol "BTC" funding_tiny ticker_ex) = none := by
  refine ⟨rfl, by decide, by norm_num [cfg_ex, strategy_init, abs_lt], rfl, ?_⟩
  rw [update_run cfg_ex 34200 st_vol "BTC" funding_tiny ticker_ex (1 / 100000)
    (by decide) (by decide) rfl]
  dsimp only
  have hlook : dict_lookup "BTC" st_vol.history =
      some [1/100, -1/100, 1/100, -1/100, 1/100, -1/100] := rfl
  rw [hlook]
  simp only [Option.isSome_some, Option.getD_some, if_true]
  have hup : update_history [1/100, -1/100, 1/100, -1/100, 1/100, -1/100]
      ((1 : ℚ) / 100000) =
      [1/100, -1/100, 1/100, -1/100, 1/100, -1/100, 1/100000] := rfl
  rw [hup]
  have habs : |(1 : ℚ) / 100000| = 1 / 100000 := abs_of_nonneg (by norm_num)
  have hvar : (calculate_stats
      [1/100, -1/100, 1/100, -1/100, 1/100, -1/100, 1/100000]).std_sq >
      (|(1 : ℚ) / 100000| * (1 / 2)) ^ 2 := by
    rw [habs]
    norm_num [calculate_stats, sample_variance, list_mean]
  rw [if_pos ⟨by norm_num, hvar⟩]
  rfl

/-! ## C5: the position cap -/

/-- C5 (amended): `update` emits no `open_*` signal for a new symbol while
the position count is at (or beyond) `max_positions`, `update` never
changes the position set, `clear_position` never grows it, and
`register_position` preserves the cap when invoked only for symbols that
are already present or while the count is strictly below the cap —
`register_position` itself performs no cap check. -/
theorem C5_position_cap_amended :
    (∀ (cfg : StratConfig) (now : ℕ) (st : StratState) (symbol : String)
        (funding ticker : List (String × ℚ)),
        dict_lookup symbol st.positions = none →
        cfg.max_positions ≤ st.positions.length →
        emits_open (update cfg now st symbol funding ticker) = false) ∧
    (∀ (cfg : StratConfig) (st : StratState) (now : ℕ) (symbol side : String)
        (rate size : ℚ) (price : Option ℚ),
        st.positions.length ≤ cfg.max_positions →
        ((dict_lookup symbol st.positions).isSome ∨
          st.positions.length < cfg.max_positions) →
        (register_position st now symbol side rate size price).positions.length ≤
          cfg.max_positions) ∧
    (∀ (st : StratState) (symbol : String),
        (clear_position st symbol).positions.length ≤ st.positions.length) ∧
    (∀ (cfg : StratConfig) (now : ℕ) (st : StratState) (symbol : String)
        (funding ticker : List (String × ℚ)) (osig : Option FundingSignal)
        (st' : StratState),
        update cfg now st symbol funding ticker = .ok (osig, st') →
        st'.positions = st.positions) := by
  refine ⟨?_, ?_, ?_, ?_⟩
  · intro cfg now st symbol funding ticker hnone hcap
    rcases hu : update cfg now st symbol funding ticker with e | ⟨osig, st'⟩
    · rfl
    · rcases osig with _ | sig
      · rfl
      · obtain ⟨-, hinv⟩ := update_ok_inv cfg now st symbol funding ticker (some sig) st' hu
        obtain ⟨rate, mark, stats, -, -, hcase⟩ := hinv sig rfl
        rcases hcase with ⟨pos, hpos, -⟩ | ⟨-, hlt, -⟩
        · rw [hnone] at hpos
          exact Option.noConfusion hpos
        · omega
  · intro cfg st now symbol side rate size price hle hor
    simp only [register_position]
    rw [dict_insert_length]
    rcases hor with h | h
    · rw [if_pos h]
      exact hle
    · by_cases hs : (dict_lookup symbol st.positions).isSome
      · rw [if_pos hs]
        exact hle
      · rw [if_neg hs]
        omega
  · intro st symbol
    simp only [clear_position]
    split_ifs with h
    · exact dict_erase_length_le _ _
    · exact le_refl _
  · intro cfg now st symbol funding ticker osig st' h
    exact (update_ok_inv cfg now st symbol funding ticker osig st' h).1

/-- A four-symbol configuration with `max_positions = 3`. -/
def cfg_multi : StratConfig :=
  strategy_init ["A", "B", "C", "D"] (15 / 1000) (5 / 1000) 100 5 3

/-- A state already holding `max_positions = 3` positions. -/
def st_cap : StratState :=
  { history := [], positions := [("A", pos_ex), ("B", pos_ex), ("C", pos_ex)] }

/-- The empty starting state. -/
def st_empty : StratState := { history := [], positions := [] }

/-- Funding data with a rate above every entry threshold. -/
def funding_hot : List (String × ℚ) := [("fundingRate", 3 / 10000), ("markPrice", 100)]

/-- Witness for C5, one instantiation per conjunct. -/
theorem C5_position_cap_amended_witness :
    emits_open (update cfg_multi 23100 st_cap "D" funding_hot ticker_ex) = false ∧
    (register_position st_ex 0 "ETH" "long" 1 20 none).positions.length ≤
      cfg_ex.max_positions ∧
    (clear_position st_ex "BTC").positions.length ≤ st_ex.positions.length ∧
    st_ex.positions = st_ex.positions :=
  ⟨C5_position_cap_amended.1 cfg_multi 23100 st_cap "D" funding_hot ticker_ex rfl
      (by decide),
    C5_position_cap_amended.2.1 cfg_ex st_ex 0 "ETH" "long" 1 20 none (by decide)
      (Or.inr (by decide)),
    C5_position_cap_amended.2.2.1 st_ex "BTC",
    C5_position_cap_amended.2.2.2 cfg_ex 0 st_ex "ETH" funding_tiny ticker_ex
      none st_ex rfl⟩

/-- Counterexample to C5 as stated: `register_position` performs no cap
check, so registering four distinct symbols from the empty ledger leaves
four stored positions, exceeding `max_positions = 3`. -/
theorem C5_register_exceeds_cap_cex :
    cfg_ex.max_positions <
      (register_position (register_position (register_position (register_position
        st_empty 0 "A" "short" 1 10 none)
        0 "B" "short" 1 10 none)
        0 "C" "short" 1 10 none)
        0 "D" "short" 1 10 none).positions.length := by
  decide

end FundingBot
